import Mathlib

/-!
# Verification of the gm8exe reader pipeline (OpenGMK)

A shallow embedding of the parts of `gm8exe/src/reader.rs`,
`gm8exe/src/gamedata.rs` and `gm8emulator/src/asset/sprite.rs` that the
specification's claims are about, together with theorems settling each claim.

Bytes are modelled as natural numbers; byte streams as `List Nat`.
Little-endian u32 reads combine four consecutive bytes.  Fallible reads
return `Except`; slice indexing that can panic in Rust is modelled with a
dedicated `panicked` outcome so that panics are never conflated with
recoverable errors.
-/

set_option autoImplicit false

namespace GM8

/-- Asset-level errors, mirroring `gm8exe::asset::Error` as used by the reader
(`MalformedData` for inflate/framing failures, `VersionError` for section
version tag mismatches under strict mode). -/
inductive AssetErr where
  | MalformedData : AssetErr
  | VersionError : (expected : Nat) → (got : Nat) → AssetErr
deriving DecidableEq, Repr

/-- Mirrors `ReaderError` from `gm8exe/src/reader.rs` (the payload of the `IO`
variant is irrelevant to control flow and is dropped). -/
inductive ReaderError where
  | AssetError : AssetErr → ReaderError
  | InvalidExeHeader : ReaderError
  | IOErr : ReaderError
  | PartialUPXPacking : ReaderError
  | UnknownFormat : ReaderError
deriving DecidableEq, Repr

/-- Mirrors `GameVersion` from `gm8exe/src/lib.rs`. -/
inductive GameVersion where
  | GameMaker8_0 : GameVersion
  | GameMaker8_1 : GameVersion
deriving DecidableEq, Repr

/-- Read a little-endian u32 from the head of a byte stream, consuming four
bytes; fails (like `read_u32::<LE>` through `byteorder`) when fewer than four
bytes remain. -/
def readU32 : List Nat → Except ReaderError (Nat × List Nat)
  | b0 :: b1 :: b2 :: b3 :: rest =>
      .ok (b0 + 256 * b1 + 65536 * b2 + 16777216 * b3, rest)
  | _ => .error .IOErr

/-- `slice.get(lo..hi)` on a Rust byte slice: `some` of the subslice when the
range is in bounds, `none` otherwise. -/
def sliceGet (data : List Nat) (lo hi : Nat) : Option (List Nat) :=
  if lo ≤ hi ∧ hi ≤ data.length then some ((data.drop lo).take (hi - lo)) else none

/-- The little-endian u32 formed by the four bytes of `data` starting at
index `i` (out-of-range bytes read as 0; callers establish the bounds). -/
def dwordAt (data : List Nat) (i : Nat) : Nat :=
  data.getD i 0 + 256 * data.getD (i + 1) 0 + 65536 * data.getD (i + 2) 0 +
    16777216 * data.getD (i + 3) 0

/-! ## PE header validation (`from_exe`, reader.rs lines 79-91) -/

/-- The expected bytes at `pe_header_loc`: `"PE\0\0\x4C\x01"`. -/
def peMagic : List Nat := [80, 69, 0, 0, 0x4C, 0x01]

/-- Header validation prefix of `from_exe` (reader.rs lines 79-91):
`MZ` check via `get(0..2).unwrap_or(b"XX")`, the u32 read at position 0x3C
(an `IO` error when the buffer is too short for it), then the exact match of
the six bytes at `pe_header_loc` against `peMagic`.  Returns `pe_header_loc`
on success. -/
def from_exe_header (data : List Nat) : Except ReaderError Nat :=
  if (sliceGet data 0 2).getD [88, 88] ≠ [77, 90] then .error .InvalidExeHeader
  else if data.length < 0x3C + 4 then .error .IOErr
  else
    let pe_header_loc := dwordAt data 0x3C
    if sliceGet data pe_header_loc (pe_header_loc + 6) = some peMagic then .ok pe_header_loc
    else .error .InvalidExeHeader

/-- The header-validation stage of `from_exe` paired with the buffer it leaves
behind: the source performs no writes in this region (it only reads through
`get` and the cursor), so the stage returns the buffer unchanged. -/
def from_exe_header_stage (data : List Nat) : Except ReaderError Nat × List Nat :=
  (from_exe_header data, data)

/-! ## Section version tags (`assert_ver!`, reader.rs lines 162-176) -/

/-- The `assert_ver!` macro from reader.rs: under `strict`, a mismatch is
`AssetError (VersionError expected got)`; otherwise `Ok`. -/
def assert_ver (strict : Bool) (expected got : Nat) : Except ReaderError Unit :=
  if strict then
    if got = expected then .ok () else .error (.AssetError (.VersionError expected got))
  else .ok ()

/-- Every `assert_ver!` call site in `from_exe`, in stream order, with the
section name literal and the expected version constant from the source. -/
def sectionVersions : List (String × Nat) :=
  [("extensions header", 700),
   ("triggers header", 800),
   ("constants header", 800),
   ("sounds header", 800),
   ("sprites header", 800),
   ("backgrounds header", 800),
   ("paths header", 800),
   ("scripts header", 800),
   ("fonts header", 800),
   ("timelines header", 800),
   ("objects header", 800),
   ("rooms header", 800),
   ("included files header", 800),
   ("help dialog", 800),
   ("action library initialization code header", 500),
   ("room order lookup", 700)]

/-! ## Settings bit-packing (reader.rs lines 214-217 and 237-240) -/

/-- Decoding of the vsync settings u32 (reader.rs lines 214-217):
8.0 yields `(x != 0, true)`; 8.1 yields `((x & 1) != 0, (x & (1 << 7)) != 0)`. -/
def vsync_force_cpu (ver : GameVersion) (x : Nat) : Bool × Bool :=
  match ver with
  | .GameMaker8_0 => (decide (x ≠ 0), true)
  | .GameMaker8_1 => (decide (x &&& 1 ≠ 0), decide (x &&& (1 <<< 7) ≠ 0))

/-- Decoding of the uninitialized-variables settings u32 (reader.rs lines
237-240): 8.0 yields `(x != 0, false)`; 8.1 yields
`((x & 1) != 0, (x & 2) != 0)`. -/
def zero_uninit_error_args (ver : GameVersion) (x : Nat) : Bool × Bool :=
  match ver with
  | .GameMaker8_0 => (decide (x ≠ 0), false)
  | .GameMaker8_1 => (decide (x &&& 1 ≠ 0), decide (x &&& 2 ≠ 0))

/-! ## Trailing `swap_creation_events` flag (reader.rs lines 241-244) -/

/-- The tail of the settings block (reader.rs lines 241-244): one u32 (the
webgl field) is attempted; on failure the flag is `false`.  On success the
swap_creation_events u32 itself is read with `?`, so a failure there
propagates as an error. -/
def read_swap_creation_events (s : List Nat) : Except ReaderError Bool :=
  match readU32 s with
  | .error _ => .ok false
  | .ok (_webgl, s1) =>
    match readU32 s1 with
    | .error e => .error e
    | .ok (v, _) => .ok (decide (v ≠ 0))

/-! ## Asset record framing and deserialization (reader.rs lines 412-455) -/

/-- Outcome of a reader step whose Rust original can also panic (the record
slicing `&data[pos..pos + len]` in `get_asset_refs` is a direct index):
`panicked` is kept distinct from every `ReaderError`. -/
inductive RResult (α : Type) where
  | ok : α → RResult α
  | err : ReaderError → RResult α
  | panicked : RResult α
deriving DecidableEq, Repr

/-- The record loop of `get_asset_refs` (reader.rs lines 415-421): for each of
`n` records, read a u32 length, then slice that many bytes out of the stream
(a panic when fewer remain, as in the Rust indexing).  Returns the record
slices in on-disk order together with the rest of the stream. -/
def get_asset_refs_loop : Nat → List Nat → RResult (List (List Nat) × List Nat)
  | 0, s => .ok ([], s)
  | n + 1, s =>
    match readU32 s with
    | .error e => .err e
    | .ok (len, s1) =>
      if len ≤ s1.length then
        match get_asset_refs_loop n (s1.drop len) with
        | .ok (refs, rest) => .ok (s1.take len :: refs, rest)
        | .err e => .err e
        | .panicked => .panicked
      else .panicked

/-- `get_asset_refs` (reader.rs lines 412-423): reads the u32 record count,
then that many length-prefixed record slices.  The count is returned
alongside for stating the section-header invariant. -/
def get_asset_refs (s : List Nat) : RResult (Nat × List (List Nat) × List Nat) :=
  match readU32 s with
  | .error e => .err e
  | .ok (count, s1) =>
    match get_asset_refs_loop count s1 with
    | .ok (refs, rest) => .ok (count, refs, rest)
    | .err e => .err e
    | .panicked => .panicked

/-- The deflate encoding of four zero bytes at standard compression, checked
literally by `get_assets` before inflating (reader.rs line 437). -/
def zeroSentinel : List Nat :=
  [0x78, 0x9C, 0x63, 0x60, 0x60, 0x60, 0x00, 0x00, 0x00, 0x04, 0x00, 0x01]

/-- The `to_asset` closure of `get_assets` (reader.rs lines 434-448),
parametrized by the zlib inflater (an external crate; `none` is a corrupt
stream) and the per-type deserializer.  The sentinel short-circuits to an
absent slot before `inflate` is consulted; otherwise the first u32 of the
inflated output is the exists flag (a failed read is `MalformedData`), and a
nonzero flag hands the remainder to the deserializer. -/
def to_asset {T : Type} (inflate : List Nat → Option (List Nat))
    (deser : List Nat → Except AssetErr T) (data : List Nat) :
    Except ReaderError (Option T) :=
  if data = zeroSentinel then .ok none
  else
    match inflate data with
    | none => .error (.AssetError .MalformedData)
    | some out =>
      match readU32 out with
      | .error _ => .error (.AssetError .MalformedData)
      | .ok (0, _) => .ok none
      | .ok (_, rest) =>
        match deser rest with
        | .ok t => .ok (some t)
        | .error e => .error (.AssetError e)

/-- `.iter().map(f).collect::<Result<Vec<_>, _>>()`: sequential collection,
stopping at the first error. -/
def seqCollect {α β : Type} (f : α → Except ReaderError β) :
    List α → Except ReaderError (List β)
  | [] => .ok []
  | a :: rest =>
    match f a with
    | .error e => .error e
    | .ok b =>
      match seqCollect f rest with
      | .error e => .error e
      | .ok bs => .ok (b :: bs)

/-- One deterministic schedule of the fork-join collection, used for the pool
branch of the embedded `get_assets` function: the work is split in half, each
half is collected independently, and the ordered join concatenates the
successes (the rayon collect is order-preserving) or propagates the left
half's error.  Rayon itself does not fix which failing record's error the
parallel collect reports — whichever worker stores its error first wins — so
this function realizes just one admissible outcome; `parCollectOutcome`
below describes the full set, and `parCollect_admissible` places this
schedule inside it. -/
def parCollect {α β : Type} (f : α → Except ReaderError β) :
    (l : List α) → Except ReaderError (List β)
  | [] => .ok []
  | [a] =>
    match f a with
    | .error e => .error e
    | .ok b => .ok [b]
  | a :: b :: rest =>
    let l := a :: b :: rest
    let n := l.length / 2
    match parCollect f (l.take n), parCollect f (l.drop n) with
    | .ok xs, .ok ys => .ok (xs ++ ys)
    | .error e, _ => .error e
    | .ok _, .error e => .error e
termination_by l => l.length
decreasing_by
  all_goals simp [List.length_take, List.length_drop]
  all_goals omega

/-- `get_assets` (reader.rs lines 425-455): frame the records with
`get_asset_refs`, then map `to_asset` over them — through the worker pool
when `multithread` is set, sequentially otherwise. -/
def get_assets {T : Type} (inflate : List Nat → Option (List Nat))
    (deser : List Nat → Except AssetErr T) (multithread : Bool) (s : List Nat) :
    RResult (List (Option T) × List Nat) :=
  match get_asset_refs s with
  | .err e => .err e
  | .panicked => .panicked
  | .ok (_count, refs, rest) =>
    match (if multithread then parCollect (to_asset inflate deser) refs
           else seqCollect (to_asset inflate deser) refs) with
    | .error e => .err e
    | .ok lst => .ok (lst, rest)

/-- The set of results `par_iter().map(f).collect::<Result<Vec<_>, _>>()` can
return on a section's records (rayon is an external crate): when every record
maps to `Ok`, the collect is order-preserving and yields exactly the
sequential result; when records fail, the error slot is filled by whichever
failing worker gets there first, so the error of any failing record may be
reported — the selection is documented as non-deterministic. -/
def parCollectOutcome {α β : Type} (f : α → Except ReaderError β) (l : List α)
    (r : Except ReaderError (List β)) : Prop :=
  ((∀ (i : Nat) (hi : i < l.length), ∃ b, f (l.get ⟨i, hi⟩) = .ok b) ∧
    r = seqCollect f l) ∨
  (∃ (i : Nat) (hi : i < l.length) (e : ReaderError),
    f (l.get ⟨i, hi⟩) = .error e ∧ r = .error e)

/-- The set of results `get_assets` can return with `multithread = true`:
the framing of reader.rs 412-423 followed by any admissible outcome of the
parallel collection of `to_asset` over the records. -/
def get_assets_mt_outcome {T : Type} (inflate : List Nat → Option (List Nat))
    (deser : List Nat → Except AssetErr T) (s : List Nat)
    (r : RResult (List (Option T) × List Nat)) : Prop :=
  match get_asset_refs s with
  | .err e => r = .err e
  | .panicked => r = .panicked
  | .ok (_count, refs, rest) =>
    ∃ rc, parCollectOutcome (to_asset inflate deser) refs rc ∧
      r = (match rc with
           | .error e => .err e
           | .ok lst => .ok (lst, rest))

/-! ## UPX detection and `gamedata::find` dispatch (reader.rs lines 151-159,
gamedata.rs lines 11-109) -/

/-- The `upx_data` computation of `from_exe` (reader.rs lines 153-156):
`Some` only when both a UPX0 virtual length and UPX1 data were recorded by
the section scan. -/
def upx_data (upx0_virtual_len : Option Nat) (upx1 : Option (Nat × Nat)) :
    Option (Nat × Nat) :=
  match upx0_virtual_len with
  | some len0 => upx1.map fun p => (len0 + p.1, p.2)
  | none => none

/-- Outcomes of the collaborator routines called by `gamedata::find` whose
bodies live outside the reader (`upx::unpack`, `antidec::check80/check81`,
`antidec::decrypt`, `gm81::seek_value`, `gm81::decrypt`, `gm80::check`,
`gm81::check`, `gm81::check_lazy`).  Modelled from the spec: probes return
an optional metadata hit, decryptors return a success flag, and any failure
is a `ReaderError` (the spec's error taxonomy gives them `IO` or
`UnknownFormat` failures only; the theorems take that as a hypothesis).
Metadata contents are irrelevant to the dispatch and are elided. -/
structure FindEnv where
  unpack : Except ReaderError Unit
  check80_unpacked : Except ReaderError (Option Unit)
  check81_unpacked : Except ReaderError (Option Unit)
  check80_orig : Except ReaderError (Option Unit)
  check81_orig : Except ReaderError (Option Unit)
  decrypt80 : Except ReaderError Bool
  decrypt81 : Except ReaderError Bool
  seek_found : Except ReaderError Bool
  gm81_decrypt : Except ReaderError Unit
  gm80_check : Except ReaderError Bool
  gm81_check : Except ReaderError Bool
  gm81_check_lazy : Except ReaderError Bool

/-- Control flow of `gamedata::find` (gamedata.rs lines 11-109) over the
collaborator outcomes in `env`: with `upx_data = some _` the unpacked buffer
is probed for the two antidec variants; with `upx_data = none` the original
buffer is probed, falling back to the plain GM8.0 / GM8.1 header checks. -/
def find (env : FindEnv) (upx : Option (Nat × Nat)) : Except ReaderError GameVersion :=
  match upx with
  | some _ =>
    match env.unpack with
    | .error e => .error e
    | .ok _ =>
      match env.check80_unpacked with
      | .error e => .error e
      | .ok (some _) =>
        match env.decrypt80 with
        | .error e => .error e
        | .ok true => .ok .GameMaker8_0
        | .ok false => .error .UnknownFormat
      | .ok none =>
        match env.check81_unpacked with
        | .error e => .error e
        | .ok (some _) =>
          match env.decrypt81 with
          | .error e => .error e
          | .ok true =>
            match env.seek_found with
            | .error e => .error e
            | .ok true =>
              match env.gm81_decrypt with
              | .error e => .error e
              | .ok _ => .ok .GameMaker8_1
            | .ok false => .error .UnknownFormat
          | .ok false => .error .UnknownFormat
        | .ok none => .error .UnknownFormat
  | none =>
    match env.check80_orig with
    | .error e => .error e
    | .ok (some _) =>
      match env.decrypt80 with
      | .error e => .error e
      | .ok true => .ok .GameMaker8_0
      | .ok false => .error .UnknownFormat
    | .ok none =>
      match env.check81_orig with
      | .error e => .error e
      | .ok (some _) =>
        match env.decrypt81 with
        | .error e => .error e
        | .ok true =>
          match env.seek_found with
          | .error e => .error e
          | .ok true =>
            match env.gm81_decrypt with
            | .error e => .error e
            | .ok _ => .ok .GameMaker8_1
          | .ok false => .error .UnknownFormat
        | .ok false => .error .UnknownFormat
      | .ok none =>
        match env.gm80_check with
        | .error e => .error e
        | .ok true => .ok .GameMaker8_0
        | .ok false =>
          match env.gm81_check with
          | .error e => .error e
          | .ok true => .ok .GameMaker8_1
          | .ok false =>
            match env.gm81_check_lazy with
            | .error e => .error e
            | .ok true => .ok .GameMaker8_1
            | .ok false => .error .UnknownFormat

/-! ## Bounding boxes (`make_bbox`, gm8emulator/src/asset/sprite.rs lines
106-151)

Rust range searches are embedded as fuel-style scans: `firstSuch p lo hi` is
`(lo..hi).find(p)` and `lastSuch p lo hi` is `(lo..hi).rfind(p)` (equally,
`(lo..hi).rev().find(p)`). -/

/-- Scan `lo, lo+1, …, lo+n-1` for the first index satisfying `p`. -/
def firstSuchAux (p : Nat → Bool) : Nat → Nat → Option Nat
  | _, 0 => none
  | lo, n + 1 => if p lo then some lo else firstSuchAux p (lo + 1) n

/-- `(lo..hi).find(p)`: the least index in `[lo, hi)` satisfying `p`. -/
def firstSuch (p : Nat → Bool) (lo hi : Nat) : Option Nat :=
  firstSuchAux p lo (hi - lo)

/-- Scan `lo+n-1, …, lo+1, lo` for the first index satisfying `p`. -/
def lastSuchAux (p : Nat → Bool) (lo : Nat) : Nat → Option Nat
  | 0 => none
  | n + 1 => if p (lo + n) then some (lo + n) else lastSuchAux p lo n

/-- `(lo..hi).rfind(p)`: the greatest index in `[lo, hi)` satisfying `p`. -/
def lastSuch (p : Nat → Bool) (lo hi : Nat) : Option Nat :=
  lastSuchAux p lo (hi - lo)

/-- `(lo..hi).any(p)`. -/
def anySuch (p : Nat → Bool) (lo hi : Nat) : Bool :=
  (firstSuch p lo hi).isSome

/-- Mirrors `BoundingBox` from sprite.rs. -/
structure BoundingBox where
  left : Nat
  right : Nat
  top : Nat
  bottom : Nat
deriving DecidableEq, Repr

/-- `make_bbox` (sprite.rs lines 106-137), step for step: the first loop finds
the leftmost colliding column and the highest pixel within it; the second
corrects `top` against the remaining columns; the third finds the rightmost
colliding column at or below `top` and the lowest pixel within it; the fourth
corrects `bottom` within the columns `left..=right`. -/
def make_bbox (coll : Nat → Nat → Bool) (frame_width frame_height : Nat) :
    BoundingBox :=
  let s1 := firstSuch (fun x => anySuch (fun y => coll x y) 0 frame_height)
    0 frame_width
  let left := match s1 with
    | some x => x
    | none => frame_width - 1
  let top1 := match s1 with
    | some x => (firstSuch (fun y => coll x y) 0 frame_height).getD (frame_height - 1)
    | none => frame_height - 1
  let top := match firstSuch
      (fun y => anySuch (fun x => coll x y) (left + 1) frame_width) 0 top1 with
    | some y => y
    | none => top1
  let s3 := lastSuch (fun x => (lastSuch (fun y => coll x y) top frame_height).isSome)
    left frame_width
  let right := match s3 with
    | some x => x
    | none => 0
  let bottom1 := match s3 with
    | some x => (lastSuch (fun y => coll x y) top frame_height).getD 0
    | none => 0
  let bottom := match lastSuch
      (fun y => anySuch (fun x => coll x y) left (right + 1)) (bottom1 + 1) frame_height with
    | some y => y
    | none => bottom1
  ⟨left, right, top, bottom⟩

/-- The naive bounding box: each side is found by scanning every pixel of the
frame (columns for `left`/`right`, rows for `top`/`bottom`), with the same
not-found defaults as `make_bbox`. -/
def naive_bbox (coll : Nat → Nat → Bool) (frame_width frame_height : Nat) :
    BoundingBox :=
  { left := (firstSuch (fun x => anySuch (fun y => coll x y) 0 frame_height)
      0 frame_width).getD (frame_width - 1),
    right := (lastSuch (fun x => anySuch (fun y => coll x y) 0 frame_height)
      0 frame_width).getD 0,
    top := (firstSuch (fun y => anySuch (fun x => coll x y) 0 frame_width)
      0 frame_height).getD (frame_height - 1),
    bottom := (lastSuch (fun y => anySuch (fun x => coll x y) 0 frame_width)
      0 frame_height).getD 0 }

/-! ## Lemmas about the range searches -/

theorem firstSuchAux_some {p : Nat → Bool} :
    ∀ {n lo k}, firstSuchAux p lo n = some k →
      lo ≤ k ∧ k < lo + n ∧ p k = true ∧ ∀ j, lo ≤ j → j < k → p j = false := by
  intro n
  induction n with
  | zero => intro lo k hk; simp [firstSuchAux] at hk
  | succ n ih =>
    intro lo k hk
    by_cases hp : p lo
    · simp [firstSuchAux, hp] at hk
      subst hk
      exact ⟨Nat.le_refl _, by omega, hp, fun j h1 h2 => absurd h1 (by omega)⟩
    · simp [firstSuchAux, hp] at hk
      obtain ⟨h1, h2, h3, h4⟩ := ih hk
      refine ⟨by omega, by omega, h3, fun j hj1 hj2 => ?_⟩
      rcases Nat.eq_or_lt_of_le hj1 with he | hl
      · rw [← he]; exact Bool.of_not_eq_true hp
      · exact h4 j hl hj2

theorem firstSuchAux_none {p : Nat → Bool} :
    ∀ {n lo}, firstSuchAux p lo n = none →
      ∀ j, lo ≤ j → j < lo + n → p j = false := by
  intro n
  induction n with
  | zero => intro lo _ j h1 h2; omega
  | succ n ih =>
    intro lo hk j h1 h2
    by_cases hp : p lo
    · simp [firstSuchAux, hp] at hk
    · simp [firstSuchAux, hp] at hk
      rcases Nat.eq_or_lt_of_le h1 with he | hl
      · rw [← he]; exact Bool.of_not_eq_true hp
      · exact ih hk j hl (by omega)

theorem firstSuchAux_of {p : Nat → Bool} :
    ∀ {n lo k}, lo ≤ k → k < lo + n → p k = true →
      (∀ j, lo ≤ j → j < k → p j = false) → firstSuchAux p lo n = some k := by
  intro n
  induction n with
  | zero => intro lo k h1 h2; omega
  | succ n ih =>
    intro lo k h1 h2 h3 h4
    by_cases hp : p lo
    · have : k = lo := by
        by_contra hne
        have : p lo = false := h4 lo (Nat.le_refl _) (by omega)
        simp [this] at hp
      subst this
      simp [firstSuchAux, hp]
    · have hne : k ≠ lo := fun he => hp (he ▸ h3)
      simp [firstSuchAux, hp]
      exact ih (by omega) (by omega) h3 (fun j hj1 hj2 => h4 j (by omega) hj2)

theorem firstSuch_some {p : Nat → Bool} {lo hi k : Nat}
    (hk : firstSuch p lo hi = some k) :
    lo ≤ k ∧ k < hi ∧ p k = true ∧ ∀ j, lo ≤ j → j < k → p j = false := by
  obtain ⟨h1, h2, h3, h4⟩ := firstSuchAux_some hk
  exact ⟨h1, by omega, h3, h4⟩

theorem firstSuch_none {p : Nat → Bool} {lo hi : Nat}
    (hk : firstSuch p lo hi = none) :
    ∀ j, lo ≤ j → j < hi → p j = false :=
  fun j h1 h2 => firstSuchAux_none hk j h1 (by omega)

theorem firstSuch_of {p : Nat → Bool} {lo hi k : Nat} (h1 : lo ≤ k) (h2 : k < hi)
    (h3 : p k = true) (h4 : ∀ j, lo ≤ j → j < k → p j = false) :
    firstSuch p lo hi = some k :=
  firstSuchAux_of h1 (by omega) h3 h4

theorem lastSuchAux_some {p : Nat → Bool} {lo : Nat} :
    ∀ {n k}, lastSuchAux p lo n = some k →
      lo ≤ k ∧ k < lo + n ∧ p k = true ∧ ∀ j, k < j → j < lo + n → p j = false := by
  intro n
  induction n with
  | zero => intro k hk; simp [lastSuchAux] at hk
  | succ n ih =>
    intro k hk
    by_cases hp : p (lo + n)
    · simp [lastSuchAux, hp] at hk
      subst hk
      exact ⟨by omega, by omega, hp, fun j h1 h2 => by omega⟩
    · simp [lastSuchAux, hp] at hk
      obtain ⟨h1, h2, h3, h4⟩ := ih hk
      refine ⟨h1, by omega, h3, fun j hj1 hj2 => ?_⟩
      by_cases hje : j = lo + n
      · rw [hje]; exact Bool.of_not_eq_true hp
      · exact h4 j hj1 (by omega)

theorem lastSuchAux_none {p : Nat → Bool} {lo : Nat} :
    ∀ {n}, lastSuchAux p lo n = none → ∀ j, lo ≤ j → j < lo + n → p j = false := by
  intro n
  induction n with
  | zero => intro _ j h1 h2; omega
  | succ n ih =>
    intro hk j h1 h2
    by_cases hp : p (lo + n)
    · simp [lastSuchAux, hp] at hk
    · simp [lastSuchAux, hp] at hk
      by_cases hje : j = lo + n
      · rw [hje]; exact Bool.of_not_eq_true hp
      · exact ih hk j h1 (by omega)

theorem lastSuchAux_of {p : Nat → Bool} {lo : Nat} :
    ∀ {n k}, lo ≤ k → k < lo + n → p k = true →
      (∀ j, k < j → j < lo + n → p j = false) → lastSuchAux p lo n = some k := by
  intro n
  induction n with
  | zero => intro k h1 h2; omega
  | succ n ih =>
    intro k h1 h2 h3 h4
    by_cases hp : p (lo + n)
    · have : k = lo + n := by
        by_contra hne
        have : p (lo + n) = false := h4 (lo + n) (by omega) (by omega)
        simp [this] at hp
      subst this
      simp [lastSuchAux, hp]
    · have hne : k ≠ lo + n := fun he => hp (he ▸ h3)
      simp [lastSuchAux, hp]
      exact ih h1 (by omega) h3 (fun j hj1 hj2 => h4 j hj1 (by omega))

theorem lastSuch_some {p : Nat → Bool} {lo hi k : Nat}
    (hk : lastSuch p lo hi = some k) :
    lo ≤ k ∧ k < hi ∧ p k = true ∧ ∀ j, k < j → j < hi → p j = false := by
  obtain ⟨h1, h2, h3, h4⟩ := lastSuchAux_some hk
  refine ⟨h1, by omega, h3, fun j hj1 hj2 => h4 j hj1 (by omega)⟩

theorem lastSuch_none {p : Nat → Bool} {lo hi : Nat}
    (hk : lastSuch p lo hi = none) :
    ∀ j, lo ≤ j → j < hi → p j = false :=
  fun j h1 h2 => lastSuchAux_none hk j h1 (by omega)

theorem lastSuch_of {p : Nat → Bool} {lo hi k : Nat} (h1 : lo ≤ k) (h2 : k < hi)
    (h3 : p k = true) (h4 : ∀ j, k < j → j < hi → p j = false) :
    lastSuch p lo hi = some k :=
  lastSuchAux_of h1 (by omega) h3 (fun j hj1 hj2 => h4 j hj1 (by omega))

theorem firstSuch_isSome_iff {p : Nat → Bool} {lo hi : Nat} :
    (firstSuch p lo hi).isSome = true ↔ ∃ k, lo ≤ k ∧ k < hi ∧ p k = true := by
  constructor
  · intro hs
    cases hk : firstSuch p lo hi with
    | none => rw [hk] at hs; simp at hs
    | some k =>
      obtain ⟨h1, h2, h3, _⟩ := firstSuch_some hk
      exact ⟨k, h1, h2, h3⟩
  · rintro ⟨k, h1, h2, h3⟩
    cases hk : firstSuch p lo hi with
    | none => exact absurd h3 (by simp [firstSuch_none hk k h1 h2])
    | some k => simp

theorem lastSuch_isSome_iff {p : Nat → Bool} {lo hi : Nat} :
    (lastSuch p lo hi).isSome = true ↔ ∃ k, lo ≤ k ∧ k < hi ∧ p k = true := by
  constructor
  · intro hs
    cases hk : lastSuch p lo hi with
    | none => rw [hk] at hs; simp at hs
    | some k =>
      obtain ⟨h1, h2, h3, _⟩ := lastSuch_some hk
      exact ⟨k, h1, h2, h3⟩
  · rintro ⟨k, h1, h2, h3⟩
    cases hk : lastSuch p lo hi with
    | none => exact absurd h3 (by simp [lastSuch_none hk k h1 h2])
    | some k => simp

theorem anySuch_true_iff {p : Nat → Bool} {lo hi : Nat} :
    anySuch p lo hi = true ↔ ∃ k, lo ≤ k ∧ k < hi ∧ p k = true :=
  firstSuch_isSome_iff

/-! ## Helper lemmas about `readU32` -/

theorem readU32_short : ∀ (s : List Nat), s.length < 4 → readU32 s = .error .IOErr
  | [], _ => rfl
  | [_], _ => rfl
  | [_, _], _ => rfl
  | [_, _, _], _ => rfl
  | _ :: _ :: _ :: _ :: _, hlen => absurd hlen (by simp)

theorem readU32_long :
    ∀ (s : List Nat), 4 ≤ s.length → ∃ v, readU32 s = .ok (v, s.drop 4)
  | [], hlen => absurd hlen (by simp)
  | [_], hlen => absurd hlen (by simp)
  | [_, _], hlen => absurd hlen (by simp)
  | [_, _, _], hlen => absurd hlen (by simp)
  | b0 :: b1 :: b2 :: b3 :: rest, _ =>
      ⟨b0 + 256 * b1 + 65536 * b2 + 16777216 * b3, rfl⟩

/-! ## Sequential and fork-join collection agree -/

theorem seqCollect_append {α β : Type} (f : α → Except ReaderError β)
    (l1 l2 : List α) :
    seqCollect f (l1 ++ l2) =
      match seqCollect f l1 with
      | .error e => .error e
      | .ok xs =>
        match seqCollect f l2 with
        | .error e => .error e
        | .ok ys => .ok (xs ++ ys) := by
  induction l1 with
  | nil =>
    simp only [List.nil_append, seqCollect]
    cases seqCollect f l2 <;> simp
  | cons a t ih =>
    cases hfa : f a with
    | error e => simp only [List.cons_append, seqCollect, hfa]
    | ok b =>
      simp only [List.cons_append, seqCollect, hfa, List.append_eq]
      rw [ih]
      cases seqCollect f t <;> cases seqCollect f l2 <;> simp

theorem parCollect_eq_seqCollect {α β : Type} (f : α → Except ReaderError β)
    (l : List α) : parCollect f l = seqCollect f l := by
  have H : ∀ (n : Nat) (l : List α), l.length ≤ n →
      parCollect f l = seqCollect f l := by
    intro n
    induction n with
    | zero =>
      intro l hlen
      have hnil : l = [] := List.length_eq_zero.mp (by omega)
      subst hnil
      simp [parCollect, seqCollect]
    | succ n ih =>
      intro l hlen
      match l with
      | [] => simp [parCollect, seqCollect]
      | [a] =>
        cases hf : f a <;> simp [parCollect, seqCollect, hf]
      | a :: b :: rest =>
        have hlen2 : (a :: b :: rest).length = rest.length + 2 := by simp
        have htk : ((a :: b :: rest).take ((a :: b :: rest).length / 2)).length ≤ n := by
          simp only [List.length_take]
          omega
        have hdp : ((a :: b :: rest).drop ((a :: b :: rest).length / 2)).length ≤ n := by
          simp only [List.length_drop]
          omega
        simp only [parCollect]
        rw [ih _ htk, ih _ hdp]
        conv =>
          rhs
          rw [← List.take_append_drop ((a :: b :: rest).length / 2) (a :: b :: rest)]
        rw [seqCollect_append]
        cases seqCollect f (List.take ((a :: b :: rest).length / 2) (a :: b :: rest)) <;>
          cases seqCollect f (List.drop ((a :: b :: rest).length / 2) (a :: b :: rest)) <;>
            rfl
  exact H l.length l (Nat.le_refl _)

theorem seqCollect_ok_length {α β : Type} {f : α → Except ReaderError β} :
    ∀ {l : List α} {bs : List β}, seqCollect f l = .ok bs → bs.length = l.length := by
  intro l
  induction l with
  | nil =>
    intro bs hok
    simp only [seqCollect] at hok
    cases hok
    rfl
  | cons a t ih =>
    intro bs hok
    cases hf : f a with
    | error e => simp only [seqCollect, hf] at hok; exact Except.noConfusion hok
    | ok b =>
      simp only [seqCollect, hf] at hok
      cases hs : seqCollect f t with
      | error e => rw [hs] at hok; exact Except.noConfusion hok
      | ok bs' =>
        rw [hs] at hok
        cases hok
        simp [ih hs]

theorem seqCollect_ok_get {α β : Type} {f : α → Except ReaderError β} :
    ∀ {l : List α} {bs : List β}, seqCollect f l = .ok bs →
      ∀ (i : Nat) (hi : i < l.length) (hb : i < bs.length),
        f (l.get ⟨i, hi⟩) = .ok (bs.get ⟨i, hb⟩) := by
  intro l
  induction l with
  | nil => intro bs _ i hi; simp at hi
  | cons a t ih =>
    intro bs hok i hi hb
    cases hf : f a with
    | error e => simp only [seqCollect, hf] at hok; exact Except.noConfusion hok
    | ok b =>
      simp only [seqCollect, hf] at hok
      cases hs : seqCollect f t with
      | error e => rw [hs] at hok; exact Except.noConfusion hok
      | ok bs' =>
        rw [hs] at hok
        cases hok
        cases i with
        | zero => simpa using hf
        | succ i => simpa using ih hs i (by simpa using hi) (by simpa using hb)

theorem seqCollect_ok_of_all_ok {α β : Type} {f : α → Except ReaderError β} :
    ∀ {l : List α},
      (∀ (i : Nat) (hi : i < l.length), ∃ b, f (l.get ⟨i, hi⟩) = .ok b) →
      ∃ bs, seqCollect f l = .ok bs := by
  intro l
  induction l with
  | nil => intro _; exact ⟨[], rfl⟩
  | cons a t ih =>
    intro hall
    obtain ⟨b, hb⟩ := hall 0 (by simp)
    obtain ⟨bs, hbs⟩ := ih (fun i hi => hall (i + 1) (by simpa using hi))
    refine ⟨b :: bs, ?_⟩
    simp only [seqCollect]
    rw [show f a = .ok b from hb, hbs]

theorem seqCollect_first_err {α β : Type} {f : α → Except ReaderError β} :
    ∀ {l : List α} (i : Nat) (hi : i < l.length) (e : ReaderError),
      f (l.get ⟨i, hi⟩) = .error e → ∃ e2, seqCollect f l = .error e2 := by
  intro l
  induction l with
  | nil => intro i hi; simp at hi
  | cons a t ih =>
    intro i hi e hf
    cases hfa : f a with
    | error e0 => exact ⟨e0, by simp [seqCollect, hfa]⟩
    | ok b =>
      cases i with
      | zero =>
        rw [show f ((a :: t).get ⟨0, hi⟩) = f a from rfl, hfa] at hf
        exact Except.noConfusion hf
      | succ i =>
        obtain ⟨e2, he2⟩ := ih i (by simpa using hi) e hf
        exact ⟨e2, by simp [seqCollect, hfa, he2]⟩

theorem seqCollect_err_mem {α β : Type} {f : α → Except ReaderError β} :
    ∀ {l : List α},
      (¬ ∀ (i : Nat) (hi : i < l.length), ∃ b, f (l.get ⟨i, hi⟩) = .ok b) →
      ∃ (i : Nat) (hi : i < l.length) (e : ReaderError),
        f (l.get ⟨i, hi⟩) = .error e ∧ seqCollect f l = .error e := by
  intro l
  induction l with
  | nil => intro hno; exact absurd (fun i hi => by simp at hi) hno
  | cons a t ih =>
    intro hno
    cases hfa : f a with
    | error e =>
      exact ⟨0, by simp, e, hfa, by simp [seqCollect, hfa]⟩
    | ok b =>
      have hnot : ¬ ∀ (i : Nat) (hi : i < t.length), ∃ b2, f (t.get ⟨i, hi⟩) = .ok b2 := by
        intro hall
        apply hno
        intro i hi
        cases i with
        | zero => exact ⟨b, hfa⟩
        | succ i => exact hall i (by simpa using hi)
      obtain ⟨i, hi, e, hf, hseq⟩ := ih hnot
      exact ⟨i + 1, by simpa using hi, e, hf, by simp [seqCollect, hfa, hseq]⟩

theorem parCollect_admissible {α β : Type} (f : α → Except ReaderError β)
    (l : List α) : parCollectOutcome f l (parCollect f l) := by
  by_cases hall : ∀ (i : Nat) (hi : i < l.length), ∃ b, f (l.get ⟨i, hi⟩) = .ok b
  · exact Or.inl ⟨hall, parCollect_eq_seqCollect f l⟩
  · obtain ⟨i, hi, e, hf, hseq⟩ := seqCollect_err_mem hall
    exact Or.inr ⟨i, hi, e, hf, (parCollect_eq_seqCollect f l).trans hseq⟩

/-! ## Record framing lemmas -/

theorem get_asset_refs_loop_ok :
    ∀ {n : Nat} {s : List Nat} {refs : List (List Nat)} {rest : List Nat},
      get_asset_refs_loop n s = .ok (refs, rest) → refs.length = n := by
  intro n
  induction n with
  | zero =>
    intro s refs rest hok
    simp only [get_asset_refs_loop] at hok
    cases hok
    rfl
  | succ n ih =>
    intro s refs rest hok
    cases hr : readU32 s with
    | error e =>
      simp only [get_asset_refs_loop, hr] at hok
      exact RResult.noConfusion hok
    | ok v =>
      obtain ⟨len, s1⟩ := v
      simp only [get_asset_refs_loop, hr] at hok
      by_cases hle : len ≤ s1.length
      · rw [if_pos hle] at hok
        cases hrec : get_asset_refs_loop n (s1.drop len) with
        | ok v2 =>
          obtain ⟨refs', rest'⟩ := v2
          rw [hrec] at hok
          cases hok
          simp [ih hrec]
        | err e => rw [hrec] at hok; cases hok
        | panicked => rw [hrec] at hok; cases hok
      · rw [if_neg hle] at hok
        cases hok

theorem get_asset_refs_ok {s : List Nat} {count : Nat} {refs : List (List Nat)}
    {rest : List Nat} (hok : get_asset_refs s = .ok (count, refs, rest)) :
    refs.length = count := by
  cases hr : readU32 s with
  | error e =>
    simp only [get_asset_refs, hr] at hok
    exact RResult.noConfusion hok
  | ok v =>
    obtain ⟨c, s1⟩ := v
    simp only [get_asset_refs, hr] at hok
    cases hrec : get_asset_refs_loop c s1 with
    | ok v2 =>
      obtain ⟨refs', rest'⟩ := v2
      rw [hrec] at hok
      cases hok
      exact get_asset_refs_loop_ok hrec
    | err e => rw [hrec] at hok; cases hok
    | panicked => rw [hrec] at hok; cases hok

theorem get_assets_ok_elim {T : Type} {inflate : List Nat → Option (List Nat)}
    {deser : List Nat → Except AssetErr T} {mt : Bool} {s : List Nat}
    {lst : List (Option T)} {rest' : List Nat}
    (hok : get_assets inflate deser mt s = .ok (lst, rest')) :
    ∃ count refs, get_asset_refs s = .ok (count, refs, rest') ∧
      seqCollect (to_asset inflate deser) refs = .ok lst := by
  cases h1 : get_asset_refs s with
  | err e =>
    simp only [get_assets, h1] at hok
    exact RResult.noConfusion hok
  | panicked =>
    simp only [get_assets, h1] at hok
    exact RResult.noConfusion hok
  | ok v =>
    obtain ⟨c, refs, rest⟩ := v
    simp only [get_assets, h1] at hok
    have hcol : (if mt then parCollect (to_asset inflate deser) refs
        else seqCollect (to_asset inflate deser) refs) =
        seqCollect (to_asset inflate deser) refs := by
      cases mt <;> simp [parCollect_eq_seqCollect]
    rw [hcol] at hok
    cases hs : seqCollect (to_asset inflate deser) refs with
    | error e => rw [hs] at hok; cases hok
    | ok lst0 =>
      rw [hs] at hok
      cases hok
      exact ⟨c, refs, rfl, hs⟩

/-! ## Bit-extraction lemmas for the settings decodings -/

theorem decide_and_pow_ne (x i : Nat) : decide (x &&& 2 ^ i ≠ 0) = x.testBit i := by
  cases htb : x.testBit i
  · simp [Nat.and_two_pow, htb]
  · simp [Nat.and_two_pow, htb]

/-- C10: for a nonempty collision mask, `make_bbox` computes the same bounding
box as the naive full scan: `left`/`right` are the least/greatest colliding
column and `top`/`bottom` the least/greatest colliding row. -/
theorem make_bbox_eq_naive (coll : Nat → Nat → Bool) (w h x0 y0 : Nat)
    (hw : 1 ≤ w) (hh : 1 ≤ h) (hx0 : x0 < w) (hy0 : y0 < h)
    (hc : coll x0 y0 = true) :
    make_bbox coll w h = naive_bbox coll w h ∧
    (∀ x y, x < w → y < h → coll x y = true →
      (make_bbox coll w h).left ≤ x ∧ x ≤ (make_bbox coll w h).right ∧
      (make_bbox coll w h).top ≤ y ∧ y ≤ (make_bbox coll w h).bottom) ∧
    (∃ y, y < h ∧ coll (make_bbox coll w h).left y = true) ∧
    (∃ y, y < h ∧ coll (make_bbox coll w h).right y = true) ∧
    (∃ x, x < w ∧ coll x (make_bbox coll w h).top = true) ∧
    (∃ x, x < w ∧ coll x (make_bbox coll w h).bottom = true) := by
  -- the leftmost nonempty column and the highest pixel within it
  have hCx0 : anySuch (fun y => coll x0 y) 0 h = true :=
    anySuch_true_iff.mpr ⟨y0, Nat.zero_le _, hy0, hc⟩
  have hlsome : (firstSuch (fun x => anySuch (fun y => coll x y) 0 h) 0 w).isSome
      = true :=
    firstSuch_isSome_iff.mpr ⟨x0, Nat.zero_le _, hx0, hCx0⟩
  obtain ⟨left, hleft⟩ := Option.isSome_iff_exists.mp hlsome
  obtain ⟨-, hlw, hCleft, hlmin⟩ := firstSuch_some hleft
  obtain ⟨t1, ht1⟩ :=
    Option.isSome_iff_exists.mp (firstSuch_isSome_iff.mpr (anySuch_true_iff.mp hCleft))
  obtain ⟨-, ht1h, hct1, ht1min⟩ := firstSuch_some ht1
  -- the globally highest colliding row
  have hRy0 : anySuch (fun x => coll x y0) 0 w = true :=
    anySuch_true_iff.mpr ⟨x0, Nat.zero_le _, hx0, hc⟩
  have hmsome : (firstSuch (fun y => anySuch (fun x => coll x y) 0 w) 0 h).isSome
      = true :=
    firstSuch_isSome_iff.mpr ⟨y0, Nat.zero_le _, hy0, hRy0⟩
  obtain ⟨m, hm⟩ := Option.isSome_iff_exists.mp hmsome
  obtain ⟨-, hmh, hRm, hmmin⟩ := firstSuch_some hm
  -- basic bounds from minimality
  have fact1 : ∀ x y, y < h → coll x y = true → left ≤ x := by
    intro x y hyh hcxy
    by_contra hxl
    have hfalse := hlmin x (Nat.zero_le _) (by omega)
    have hwit : anySuch (fun y => coll x y) 0 h = true :=
      anySuch_true_iff.mpr ⟨y, Nat.zero_le _, hyh, hcxy⟩
    simp [hwit] at hfalse
  have fact2 : ∀ x y, x < w → coll x y = true → m ≤ y := by
    intro x y hxw hcxy
    by_contra hym
    have hfalse := hmmin y (Nat.zero_le _) (by omega)
    have hwit : anySuch (fun x => coll x y) 0 w = true :=
      anySuch_true_iff.mpr ⟨x, Nat.zero_le _, hxw, hcxy⟩
    simp [hwit] at hfalse
  have hmt1 : m ≤ t1 := fact2 left t1 hlw hct1
  -- the second loop corrects `top` to the global minimum row
  have hst2 :
      firstSuch (fun y => anySuch (fun x => coll x y) (left + 1) w) 0 t1 = some m ∨
      (firstSuch (fun y => anySuch (fun x => coll x y) (left + 1) w) 0 t1 = none ∧
        t1 = m) := by
    rcases Nat.eq_or_lt_of_le hmt1 with he | hlt
    · right
      refine ⟨?_, he.symm⟩
      cases h2 : firstSuch (fun y => anySuch (fun x => coll x y) (left + 1) w) 0 t1 with
      | none => rfl
      | some y =>
        obtain ⟨-, hyt1, hp2, -⟩ := firstSuch_some h2
        obtain ⟨x, hx1, hxw, hcxy⟩ := anySuch_true_iff.mp hp2
        have hfalse := hmmin y (Nat.zero_le _) (by omega)
        have hwit : anySuch (fun x => coll x y) 0 w = true :=
          anySuch_true_iff.mpr ⟨x, Nat.zero_le _, hxw, hcxy⟩
        simp [hwit] at hfalse
    · left
      obtain ⟨x1, -, hx1w, hcx1m⟩ := anySuch_true_iff.mp hRm
      have hlx1 : left ≤ x1 := fact1 x1 m hmh hcx1m
      have hx1ne : x1 ≠ left := by
        intro he
        rw [he] at hcx1m
        simp [ht1min m (Nat.zero_le _) hlt] at hcx1m
      refine firstSuch_of (Nat.zero_le _) hlt
        (anySuch_true_iff.mpr ⟨x1, by omega, hx1w, hcx1m⟩) ?_
      intro j _ hjm
      cases hb : anySuch (fun x => coll x j) (left + 1) w with
      | false => rfl
      | true =>
        obtain ⟨x, -, hxw, hcxj⟩ := anySuch_true_iff.mp hb
        have hfalse := hmmin j (Nat.zero_le _) hjm
        have hwit : anySuch (fun x => coll x j) 0 w = true :=
          anySuch_true_iff.mpr ⟨x, Nat.zero_le _, hxw, hcxj⟩
        simp [hwit] at hfalse
  -- the rightmost nonempty column and the lowest pixel within it
  have hMsome : (lastSuch (fun x => anySuch (fun y => coll x y) 0 h) 0 w).isSome
      = true :=
    lastSuch_isSome_iff.mpr ⟨x0, Nat.zero_le _, hx0, hCx0⟩
  obtain ⟨M, hM⟩ := Option.isSome_iff_exists.mp hMsome
  obtain ⟨-, hMw, hCM, hMmax⟩ := lastSuch_some hM
  have fact4 : ∀ x y, x < w → y < h → coll x y = true → x ≤ M := by
    intro x y hxw hyh hcxy
    by_contra hMx
    have hfalse := hMmax x (by omega) hxw
    have hwit : anySuch (fun y => coll x y) 0 h = true :=
      anySuch_true_iff.mpr ⟨y, Nat.zero_le _, hyh, hcxy⟩
    simp [hwit] at hfalse
  obtain ⟨yM, -, hyMh, hcMyM⟩ := anySuch_true_iff.mp hCM
  have hlM : left ≤ M := fact1 M yM hyMh hcMyM
  have hQM : (lastSuch (fun y => coll M y) m h).isSome = true :=
    lastSuch_isSome_iff.mpr ⟨yM, fact2 M yM hMw hcMyM, hyMh, hcMyM⟩
  have hs3 : lastSuch (fun x => (lastSuch (fun y => coll x y) m h).isSome)
      left w = some M := by
    refine lastSuch_of hlM hMw hQM ?_
    intro j hMj hjw
    cases hb : (lastSuch (fun y => coll j y) m h).isSome with
    | false => rfl
    | true =>
      obtain ⟨y, -, hyh, hcjy⟩ := lastSuch_isSome_iff.mp hb
      have hfalse := hMmax j hMj hjw
      have hwit : anySuch (fun y => coll j y) 0 h = true :=
        anySuch_true_iff.mpr ⟨y, Nat.zero_le _, hyh, hcjy⟩
      simp [hwit] at hfalse
  obtain ⟨b1, hb1⟩ := Option.isSome_iff_exists.mp hQM
  obtain ⟨hb1m, hb1h, hcMb1, -⟩ := lastSuch_some hb1
  -- the globally lowest colliding row
  have hBsome : (lastSuch (fun y => anySuch (fun x => coll x y) 0 w) 0 h).isSome
      = true :=
    lastSuch_isSome_iff.mpr ⟨y0, Nat.zero_le _, hy0, hRy0⟩
  obtain ⟨B, hB⟩ := Option.isSome_iff_exists.mp hBsome
  obtain ⟨-, hBh, hRB, hBmax⟩ := lastSuch_some hB
  have fact5 : ∀ x y, x < w → y < h → coll x y = true → y ≤ B := by
    intro x y hxw hyh hcxy
    by_contra hBy
    have hfalse := hBmax y (by omega) hyh
    have hwit : anySuch (fun x => coll x y) 0 w = true :=
      anySuch_true_iff.mpr ⟨x, Nat.zero_le _, hxw, hcxy⟩
    simp [hwit] at hfalse
  have hb1B : b1 ≤ B := fact5 M b1 hMw hb1h hcMb1
  -- the fourth loop corrects `bottom` to the global maximum row
  have hst4 :
      lastSuch (fun y => anySuch (fun x => coll x y) left (M + 1)) (b1 + 1) h = some B ∨
      (lastSuch (fun y => anySuch (fun x => coll x y) left (M + 1)) (b1 + 1) h = none ∧
        b1 = B) := by
    rcases Nat.eq_or_lt_of_le hb1B with he | hlt
    · right
      refine ⟨?_, he⟩
      cases h4 : lastSuch (fun y => anySuch (fun x => coll x y) left (M + 1)) (b1 + 1) h with
      | none => rfl
      | some y =>
        obtain ⟨hy1, hyh, hp4, -⟩ := lastSuch_some h4
        obtain ⟨x, -, hxM, hcxy⟩ := anySuch_true_iff.mp hp4
        have hfalse := hBmax y (by omega) hyh
        have hwit : anySuch (fun x => coll x y) 0 w = true :=
          anySuch_true_iff.mpr ⟨x, Nat.zero_le _, by omega, hcxy⟩
        simp [hwit] at hfalse
    · left
      obtain ⟨x2, -, hx2w, hcx2B⟩ := anySuch_true_iff.mp hRB
      refine lastSuch_of (by omega) hBh
        (anySuch_true_iff.mpr
          ⟨x2, fact1 x2 B hBh hcx2B, by
            have := fact4 x2 B hx2w hBh hcx2B
            omega, hcx2B⟩) ?_
      intro j hBj hjh
      cases hb : anySuch (fun x => coll x j) left (M + 1) with
      | false => rfl
      | true =>
        obtain ⟨x, -, hxM, hcxj⟩ := anySuch_true_iff.mp hb
        have hfalse := hBmax j hBj hjh
        have hwit : anySuch (fun x => coll x j) 0 w = true :=
          anySuch_true_iff.mpr ⟨x, Nat.zero_le _, by omega, hcxj⟩
        simp [hwit] at hfalse
  -- assemble the two sides
  have hnv : naive_bbox coll w h = ⟨left, M, m, B⟩ := by
    simp only [naive_bbox, hleft, hM, hm, hB, Option.getD_some]
  have hmb : make_bbox coll w h = ⟨left, M, m, B⟩ := by
    rcases hst2 with h2 | ⟨h2, h2e⟩ <;> rcases hst4 with h4 | ⟨h4, h4e⟩
    · simp only [make_bbox, hleft, ht1, Option.getD_some, h2, hs3, hb1, h4]
    · subst h4e
      simp only [make_bbox, hleft, ht1, Option.getD_some, h2, hs3, hb1, h4]
    · subst h2e
      simp only [make_bbox, hleft, ht1, Option.getD_some, h2, hs3, hb1, h4]
    · subst h2e
      subst h4e
      simp only [make_bbox, hleft, ht1, Option.getD_some, h2, hs3, hb1, h4]
  refine ⟨hmb.trans hnv.symm, ?_, ?_, ?_, ?_, ?_⟩
  · intro x y hxw hyh hcxy
    rw [hmb]
    exact ⟨fact1 x y hyh hcxy, fact4 x y hxw hyh hcxy,
      fact2 x y hxw hcxy, fact5 x y hxw hyh hcxy⟩
  · rw [hmb]; exact ⟨t1, ht1h, hct1⟩
  · rw [hmb]; exact ⟨b1, hb1h, hcMb1⟩
  · rw [hmb]
    obtain ⟨x1, -, hx1w, hcx1m⟩ := anySuch_true_iff.mp hRm
    exact ⟨x1, hx1w, hcx1m⟩
  · rw [hmb]
    obtain ⟨x2, -, hx2w, hcx2B⟩ := anySuch_true_iff.mp hRB
    exact ⟨x2, hx2w, hcx2B⟩

/-- In the non-UPX branch of `gamedata::find`, no collaborator outcome that
avoids `PartialUPXPacking` can make `find` return `PartialUPXPacking`. -/
theorem find_none_no_partial (env : FindEnv)
    (h1 : env.check80_orig ≠ .error .PartialUPXPacking)
    (h2 : env.check81_orig ≠ .error .PartialUPXPacking)
    (h3 : env.decrypt80 ≠ .error .PartialUPXPacking)
    (h4 : env.decrypt81 ≠ .error .PartialUPXPacking)
    (h5 : env.seek_found ≠ .error .PartialUPXPacking)
    (h6 : env.gm81_decrypt ≠ .error .PartialUPXPacking)
    (h7 : env.gm80_check ≠ .error .PartialUPXPacking)
    (h8 : env.gm81_check ≠ .error .PartialUPXPacking)
    (h9 : env.gm81_check_lazy ≠ .error .PartialUPXPacking) :
    find env none ≠ .error .PartialUPXPacking := by
  intro hcontra
  cases hc80 : env.check80_orig with
  | error e =>
    simp only [find, hc80] at hcontra
    cases hcontra
    exact h1 hc80
  | ok o80 =>
    cases o80 with
    | some u =>
      simp only [find, hc80] at hcontra
      cases hd80 : env.decrypt80 with
      | error e =>
        simp only [hd80] at hcontra
        cases hcontra
        exact h3 hd80
      | ok b =>
        simp only [hd80] at hcontra
        cases b <;> simp at hcontra
    | none =>
      simp only [find, hc80] at hcontra
      cases hc81 : env.check81_orig with
      | error e =>
        simp only [hc81] at hcontra
        cases hcontra
        exact h2 hc81
      | ok o81 =>
        cases o81 with
        | some u =>
          simp only [hc81] at hcontra
          cases hd81 : env.decrypt81 with
          | error e =>
            simp only [hd81] at hcontra
            cases hcontra
            exact h4 hd81
          | ok b =>
            cases b with
            | false => simp only [hd81] at hcontra; simp at hcontra
            | true =>
              simp only [hd81] at hcontra
              cases hsk : env.seek_found with
              | error e =>
                simp only [hsk] at hcontra
                cases hcontra
                exact h5 hsk
              | ok b2 =>
                cases b2 with
                | false => simp only [hsk] at hcontra; simp at hcontra
                | true =>
                  simp only [hsk] at hcontra
                  cases hgd : env.gm81_decrypt with
                  | error e =>
                    simp only [hgd] at hcontra
                    cases hcontra
                    exact h6 hgd
                  | ok u2 => simp only [hgd] at hcontra; simp at hcontra
        | none =>
          simp only [hc81] at hcontra
          cases hg80 : env.gm80_check with
          | error e =>
            simp only [hg80] at hcontra
            cases hcontra
            exact h7 hg80
          | ok b =>
            cases b with
            | true => simp only [hg80] at hcontra; simp at hcontra
            | false =>
              simp only [hg80] at hcontra
              cases hg81 : env.gm81_check with
              | error e =>
                simp only [hg81] at hcontra
                cases hcontra
                exact h8 hg81
              | ok b2 =>
                cases b2 with
                | true => simp only [hg81] at hcontra; simp at hcontra
                | false =>
                  simp only [hg81] at hcontra
                  cases hgl : env.gm81_check_lazy with
                  | error e =>
                    simp only [hgl] at hcontra
                    cases hcontra
                    exact h9 hgl
                  | ok b3 =>
                    cases b3 <;> simp only [hgl] at hcontra <;> simp at hcontra

/-- Both sides of the MZ range read agree with `List.take` once the buffer
has at least two bytes. -/
theorem sliceGet_take2 (data : List Nat) (hlen : 2 ≤ data.length) :
    sliceGet data 0 2 = some (data.take 2) := by
  unfold sliceGet
  rw [if_pos ⟨by omega, hlen⟩]
  simp

/-! ## The claims -/

/-- C1 counterexample: a section with two corrupt records that fail with
different errors.  The single-threaded collect reports the first record's
`MalformedData`, while the pool may report the second record's
`VersionError` (the parallel collect keeps whichever failing record's error
is stored first), so the two modes are not guaranteed to fail with the same
error, refuting the claim as stated. -/
theorem c1_counterexample :
    get_assets_mt_outcome (fun d => if d = [0] then none else some [1, 0, 0, 0])
      (fun _ => (.error (.VersionError 800 700) : Except AssetErr Nat))
      [2, 0, 0, 0, 1, 0, 0, 0, 0, 1, 0, 0, 0, 1]
      (.err (.AssetError (.VersionError 800 700))) ∧
    get_assets (fun d => if d = [0] then none else some [1, 0, 0, 0])
      (fun _ => (.error (.VersionError 800 700) : Except AssetErr Nat))
      false [2, 0, 0, 0, 1, 0, 0, 0, 0, 1, 0, 0, 0, 1] =
      .err (.AssetError .MalformedData) ∧
    (RResult.err (ReaderError.AssetError (.VersionError 800 700)) :
      RResult (List (Option Nat) × List Nat)) ≠ .err (.AssetError .MalformedData) := by
  refine ⟨?_, by decide, by decide⟩
  exact ⟨.error (.AssetError (.VersionError 800 700)),
    Or.inr ⟨1, by decide, .AssetError (.VersionError 800 700), rfl, rfl⟩, rfl⟩

/-- C1 (amended): any result the worker pool can produce agrees with the
single-threaded parse on the outcome kind, and exactly on success: a
successful pool run yields the identical (deep-equal, order-preserving)
section list as `multithread = false`; when one mode fails the other fails
too, though the reported error may come from a different failing record. -/
theorem c1_mt_outcome_agrees (T : Type) (inflate : List Nat → Option (List Nat))
    (deser : List Nat → Except AssetErr T) (s : List Nat)
    (r : RResult (List (Option T) × List Nat))
    (hout : get_assets_mt_outcome inflate deser s r) :
    (∃ lst rest, r = .ok (lst, rest) ∧
      get_assets inflate deser false s = .ok (lst, rest)) ∨
    (∃ e e2, r = .err e ∧ get_assets inflate deser false s = .err e2) ∨
    (r = .panicked ∧ get_assets inflate deser false s = .panicked) := by
  unfold get_assets_mt_outcome at hout
  cases h1 : get_asset_refs s with
  | err e =>
    rw [h1] at hout
    exact Or.inr (Or.inl ⟨e, e, hout, by simp only [get_assets, h1]⟩)
  | panicked =>
    rw [h1] at hout
    exact Or.inr (Or.inr ⟨hout, by simp only [get_assets, h1]⟩)
  | ok v =>
    obtain ⟨c, refs, rest⟩ := v
    rw [h1] at hout
    obtain ⟨rc, houtc, hr⟩ := hout
    rcases houtc with ⟨hall, hrc⟩ | ⟨i, hi, e, hf, hrc⟩
    · subst hrc
      obtain ⟨bs, hbs⟩ := seqCollect_ok_of_all_ok hall
      rw [hbs] at hr
      refine Or.inl ⟨bs, rest, hr, ?_⟩
      simp [get_assets, h1, hbs]
    · subst hrc
      obtain ⟨e2, he2⟩ := seqCollect_first_err i hi e hf
      refine Or.inr (Or.inl ⟨e, e2, hr, ?_⟩)
      simp [get_assets, h1, he2]

/-- Witness for C1 at a one-record section whose pool run succeeds. -/
theorem c1_witness :
    get_assets_mt_outcome (fun _ => none)
      (fun _ => (.error .MalformedData : Except AssetErr Nat))
      ([1, 0, 0, 0, 12, 0, 0, 0] ++ zeroSentinel) (.ok ([none], [])) ∧
    get_assets (fun _ => none) (fun _ => (.error .MalformedData : Except AssetErr Nat))
      false ([1, 0, 0, 0, 12, 0, 0, 0] ++ zeroSentinel) = .ok ([none], []) := by
  have hout : get_assets_mt_outcome (fun _ => none)
      (fun _ => (.error .MalformedData : Except AssetErr Nat))
      ([1, 0, 0, 0, 12, 0, 0, 0] ++ zeroSentinel)
      (.ok ([(none : Option Nat)], [])) := by
    refine ⟨.ok [none], Or.inl ⟨?_, rfl⟩, rfl⟩
    intro i hi
    have h0 : i = 0 := by simpa using hi
    subst h0
    exact ⟨none, rfl⟩
  refine ⟨hout, ?_⟩
  rcases c1_mt_outcome_agrees Nat (fun _ => none)
      (fun _ => (.error .MalformedData : Except AssetErr Nat))
      ([1, 0, 0, 0, 12, 0, 0, 0] ++ zeroSentinel) (.ok ([none], [])) hout with
    ⟨lst, rest, hr, hseq⟩ | ⟨e, e2, hr, _⟩ | ⟨hr, _⟩
  · cases hr
    exact hseq
  · exact RResult.noConfusion hr
  · exact RResult.noConfusion hr

/-- C2: the claim is refuted by the code.  With exactly one of UPX0/UPX1
recorded by the section scan, `from_exe` computes `upx_data = none`
(reader.rs lines 153-156), so `gamedata::find` takes the non-UPX branch,
which cannot produce `PartialUPXPacking` as long as the collaborator
routines fail only with the spec's `IO`/`UnknownFormat` errors.  The
`PartialUPXPacking` variant is never constructed anywhere in the reader. -/
theorem c2_partial_upx_not_reported (env : FindEnv) (len0 : Nat) (p1 : Nat × Nat)
    (h1 : env.check80_orig ≠ .error .PartialUPXPacking)
    (h2 : env.check81_orig ≠ .error .PartialUPXPacking)
    (h3 : env.decrypt80 ≠ .error .PartialUPXPacking)
    (h4 : env.decrypt81 ≠ .error .PartialUPXPacking)
    (h5 : env.seek_found ≠ .error .PartialUPXPacking)
    (h6 : env.gm81_decrypt ≠ .error .PartialUPXPacking)
    (h7 : env.gm80_check ≠ .error .PartialUPXPacking)
    (h8 : env.gm81_check ≠ .error .PartialUPXPacking)
    (h9 : env.gm81_check_lazy ≠ .error .PartialUPXPacking) :
    upx_data (some len0) none = none ∧ upx_data none (some p1) = none ∧
    find env (upx_data (some len0) none) ≠ .error .PartialUPXPacking ∧
    find env (upx_data none (some p1)) ≠ .error .PartialUPXPacking :=
  ⟨rfl, rfl,
    find_none_no_partial env h1 h2 h3 h4 h5 h6 h7 h8 h9,
    find_none_no_partial env h1 h2 h3 h4 h5 h6 h7 h8 h9⟩

/-- Witness for C2 at a concrete collaborator environment. -/
theorem c2_witness :
    ((⟨.ok (), .ok none, .ok none, .ok none, .ok none, .ok false, .ok false,
        .ok false, .ok (), .ok false, .ok false, .ok false⟩ :
      FindEnv).check80_orig ≠ .error .PartialUPXPacking) ∧
    upx_data (some 5) none = none ∧
    find (⟨.ok (), .ok none, .ok none, .ok none, .ok none, .ok false, .ok false,
        .ok false, .ok (), .ok false, .ok false, .ok false⟩ : FindEnv)
      (upx_data (some 5) none) ≠ .error .PartialUPXPacking :=
  ⟨fun hcontra => Except.noConfusion hcontra,
    (c2_partial_upx_not_reported
      ⟨.ok (), .ok none, .ok none, .ok none, .ok none, .ok false, .ok false,
        .ok false, .ok (), .ok false, .ok false, .ok false⟩ 5 (7, 9)
      (fun hcontra => Except.noConfusion hcontra)
      (fun hcontra => Except.noConfusion hcontra)
      (fun hcontra => Except.noConfusion hcontra)
      (fun hcontra => Except.noConfusion hcontra)
      (fun hcontra => Except.noConfusion hcontra)
      (fun hcontra => Except.noConfusion hcontra)
      (fun hcontra => Except.noConfusion hcontra)
      (fun hcontra => Except.noConfusion hcontra)
      (fun hcontra => Except.noConfusion hcontra)).1,
    (c2_partial_upx_not_reported
      ⟨.ok (), .ok none, .ok none, .ok none, .ok none, .ok false, .ok false,
        .ok false, .ok (), .ok false, .ok false, .ok false⟩ 5 (7, 9)
      (fun hcontra => Except.noConfusion hcontra)
      (fun hcontra => Except.noConfusion hcontra)
      (fun hcontra => Except.noConfusion hcontra)
      (fun hcontra => Except.noConfusion hcontra)
      (fun hcontra => Except.noConfusion hcontra)
      (fun hcontra => Except.noConfusion hcontra)
      (fun hcontra => Except.noConfusion hcontra)
      (fun hcontra => Except.noConfusion hcontra)
      (fun hcontra => Except.noConfusion hcontra)).2.2.1⟩

/-- C3: a successfully parsed asset section has exactly the record count from
its header as the length of the sparse list, deleted slots included, with
slot `i` of the output determined by record `i` of the stream (stream
order). -/
theorem c3_sparse_list_invariant (T : Type) (inflate : List Nat → Option (List Nat))
    (deser : List Nat → Except AssetErr T) (mt : Bool) (s : List Nat)
    (count : Nat) (refs : List (List Nat)) (rest : List Nat)
    (lst : List (Option T)) (rest' : List Nat)
    (h1 : get_asset_refs s = .ok (count, refs, rest))
    (h2 : get_assets inflate deser mt s = .ok (lst, rest')) :
    refs.length = count ∧ lst.length = count ∧ rest' = rest ∧
    ∀ (i : Nat) (hi : i < refs.length) (hl : i < lst.length),
      to_asset inflate deser (refs.get ⟨i, hi⟩) = .ok (lst.get ⟨i, hl⟩) := by
  obtain ⟨c2, refs2, hr2, hs2⟩ := get_assets_ok_elim h2
  rw [h1] at hr2
  cases hr2
  refine ⟨get_asset_refs_ok h1, ?_, rfl, ?_⟩
  · rw [seqCollect_ok_length hs2]
    exact get_asset_refs_ok h1
  · intro i hi hl
    exact seqCollect_ok_get hs2 i hi hl

/-- Witness for C3 on a one-record section stream. -/
theorem c3_witness :
    get_asset_refs ([1, 0, 0, 0, 12, 0, 0, 0] ++ zeroSentinel) =
      .ok (1, [zeroSentinel], []) ∧
    get_assets (fun _ => none) (fun _ => (.error .MalformedData : Except AssetErr Nat))
      false ([1, 0, 0, 0, 12, 0, 0, 0] ++ zeroSentinel) = .ok ([none], []) ∧
    ([zeroSentinel] : List (List Nat)).length = 1 ∧
    ([none] : List (Option Nat)).length = 1 :=
  ⟨by decide, by decide,
    (c3_sparse_list_invariant Nat (fun _ => none)
      (fun _ => (.error .MalformedData : Except AssetErr Nat)) false
      ([1, 0, 0, 0, 12, 0, 0, 0] ++ zeroSentinel) 1 [zeroSentinel] [] [none] []
      (by decide) (by decide)).1,
    (c3_sparse_list_invariant Nat (fun _ => none)
      (fun _ => (.error .MalformedData : Except AssetErr Nat)) false
      ([1, 0, 0, 0, 12, 0, 0, 0] ++ zeroSentinel) 1 [zeroSentinel] [] [none] []
      (by decide) (by decide)).2.1⟩

/-- C4: a record whose compressed bytes equal the 12-byte zero sentinel is
short-circuited to an absent slot; the result is the same for every inflater
(the decompressor is never consulted on those bytes). -/
theorem c4_zero_sentinel_absent (T : Type) (inflate : List Nat → Option (List Nat))
    (deser : List Nat → Except AssetErr T) (mt : Bool) (s : List Nat)
    (count : Nat) (refs : List (List Nat)) (rest : List Nat)
    (lst : List (Option T)) (rest' : List Nat)
    (h1 : get_asset_refs s = .ok (count, refs, rest))
    (h2 : get_assets inflate deser mt s = .ok (lst, rest'))
    (i : Nat) (hi : i < refs.length) (hl : i < lst.length)
    (hsent : refs.get ⟨i, hi⟩ = zeroSentinel) :
    to_asset inflate deser (refs.get ⟨i, hi⟩) = .ok none ∧
    lst.get ⟨i, hl⟩ = none := by
  have hts : to_asset inflate deser (refs.get ⟨i, hi⟩) = .ok none := by
    rw [hsent]
    simp [to_asset]
  obtain ⟨c2, refs2, hr2, hs2⟩ := get_assets_ok_elim h2
  rw [h1] at hr2
  cases hr2
  have hgot := seqCollect_ok_get hs2 i hi hl
  rw [hts] at hgot
  injection hgot with hval
  exact ⟨hts, hval.symm⟩

/-- Witness for C4 on a one-record section stream holding the sentinel. -/
theorem c4_witness :
    get_asset_refs ([1, 0, 0, 0, 12, 0, 0, 0] ++ zeroSentinel) =
      .ok (1, [zeroSentinel], []) ∧
    get_assets (fun _ => none) (fun _ => (.error .MalformedData : Except AssetErr Nat))
      false ([1, 0, 0, 0, 12, 0, 0, 0] ++ zeroSentinel) = .ok ([none], []) ∧
    ([zeroSentinel] : List (List Nat)).get ⟨0, Nat.one_pos⟩ = zeroSentinel ∧
    to_asset (fun _ => none) (fun _ => (.error .MalformedData : Except AssetErr Nat))
      (([zeroSentinel] : List (List Nat)).get ⟨0, Nat.one_pos⟩) = .ok none ∧
    ([none] : List (Option Nat)).get ⟨0, Nat.one_pos⟩ = none :=
  ⟨by decide, by decide, rfl,
    (c4_zero_sentinel_absent Nat (fun _ => none)
      (fun _ => (.error .MalformedData : Except AssetErr Nat)) false
      ([1, 0, 0, 0, 12, 0, 0, 0] ++ zeroSentinel) 1 [zeroSentinel] [] [none] []
      (by decide) (by decide) 0 Nat.one_pos Nat.one_pos rfl).1,
    (c4_zero_sentinel_absent Nat (fun _ => none)
      (fun _ => (.error .MalformedData : Except AssetErr Nat)) false
      ([1, 0, 0, 0, 12, 0, 0, 0] ++ zeroSentinel) 1 [zeroSentinel] [] [none] []
      (by decide) (by decide) 0 Nat.one_pos Nat.one_pos rfl).2⟩

/-- C5: the version tag policy — under `strict`, a tag differing from the
expected constant fails with `VersionError {expected, got}` and a matching
tag passes; under non-strict mode every tag is accepted — and the
documented constants from the call sites (trigger 800, extension 700,
room-order 700, library-init 500). -/
theorem c5_version_tag_policy :
    (∀ expected got : Nat,
      assert_ver true expected got =
        (if got = expected then .ok ()
         else .error (.AssetError (.VersionError expected got))) ∧
      assert_ver false expected got = .ok ()) ∧
    sectionVersions.lookup "triggers header" = some 800 ∧
    sectionVersions.lookup "extensions header" = some 700 ∧
    sectionVersions.lookup "room order lookup" = some 700 ∧
    sectionVersions.lookup "action library initialization code header" = some 500 := by
  refine ⟨fun expected got => ⟨?_, ?_⟩, rfl, rfl, rfl, rfl⟩ <;> simp [assert_ver]

/-- C6: with a buffer of at least 64 bytes, a missing MZ signature, a PE
header pointer past EOF, or wrong bytes at the PE header location each
produce `InvalidExeHeader`. -/
theorem c6_invalid_exe_header (data : List Nat) (h64 : 64 ≤ data.length)
    (hbad : data.take 2 ≠ [77, 90] ∨ data.length < dwordAt data 0x3C ∨
      sliceGet data (dwordAt data 0x3C) (dwordAt data 0x3C + 6) ≠ some peMagic) :
    from_exe_header data = .error .InvalidExeHeader := by
  have hmz : sliceGet data 0 2 = some (data.take 2) := sliceGet_take2 data (by omega)
  by_cases hmzeq : data.take 2 = [77, 90]
  · have hslice : sliceGet data (dwordAt data 0x3C) (dwordAt data 0x3C + 6) ≠
        some peMagic := by
      rcases hbad with hb | hb | hb
      · exact absurd hmzeq hb
      · intro hcontra
        unfold sliceGet at hcontra
        by_cases hin : dwordAt data 0x3C ≤ dwordAt data 0x3C + 6 ∧
            dwordAt data 0x3C + 6 ≤ data.length
        · omega
        · rw [if_neg hin] at hcontra
          exact Option.noConfusion hcontra
      · exact hb
    have h60 : ¬ data.length < 0x3C + 4 := by omega
    simp [from_exe_header, hmz, hmzeq, h60, hslice]
  · simp [from_exe_header, hmz, hmzeq]

/-- Witness for C6 on an all-zero 64-byte buffer. -/
theorem c6_witness :
    64 ≤ (List.replicate 64 0).length ∧
    (List.replicate 64 0).take 2 ≠ [77, 90] ∧
    from_exe_header (List.replicate 64 0) = .error .InvalidExeHeader :=
  ⟨by simp, by decide, c6_invalid_exe_header (List.replicate 64 0) (by simp)
    (Or.inl (by decide))⟩

/-- C7 counterexample: with exactly four bytes left in the settings stream the
webgl u32 read succeeds, and the read of `swap_creation_events` itself fails
at EOF — but the parse then fails with an IO error instead of defaulting the
flag to `false`, contrary to the claim. -/
theorem c7_counterexample :
    read_swap_creation_events [0, 0, 0, 0] = .error .IOErr ∧
    read_swap_creation_events [0, 0, 0, 0] ≠ .ok false :=
  ⟨rfl, fun hcontra => Except.noConfusion hcontra⟩

/-- C7 amended: only a failure of the u32 read preceding the flag (the webgl
field) is treated as `swap_creation_events = false`; if that read succeeds
but the read of the flag itself fails at EOF, settings parsing fails with an
IO error; with eight or more bytes the flag is the second u32 compared
against zero. -/
theorem c7_swap_creation_events (s : List Nat) :
    (s.length < 4 → read_swap_creation_events s = .ok false) ∧
    (4 ≤ s.length → s.length < 8 → read_swap_creation_events s = .error .IOErr) ∧
    (∀ b0 b1 b2 b3 b4 b5 b6 b7 rest,
      s = b0 :: b1 :: b2 :: b3 :: b4 :: b5 :: b6 :: b7 :: rest →
      read_swap_creation_events s =
        .ok (decide (b4 + 256 * b5 + 65536 * b6 + 16777216 * b7 ≠ 0))) := by
  refine ⟨?_, ?_, ?_⟩
  · intro hlen
    unfold read_swap_creation_events
    rw [readU32_short s hlen]
  · intro hge hlt
    obtain ⟨v, hv⟩ := readU32_long s hge
    unfold read_swap_creation_events
    simp only [hv]
    rw [readU32_short (s.drop 4) (by simp [List.length_drop]; omega)]
  · intro b0 b1 b2 b3 b4 b5 b6 b7 rest hs
    subst hs
    rfl

/-- Witness for C7 at empty and four-byte settings tails. -/
theorem c7_witness :
    (([] : List Nat).length < 4 ∧ read_swap_creation_events [] = .ok false) ∧
    (4 ≤ ([0, 0, 0, 0] : List Nat).length ∧ ([0, 0, 0, 0] : List Nat).length < 8 ∧
      read_swap_creation_events [0, 0, 0, 0] = .error .IOErr) :=
  ⟨⟨by simp, (c7_swap_creation_events []).1 (by simp)⟩,
   ⟨by simp, by simp, (c7_swap_creation_events [0, 0, 0, 0]).2.1 (by simp) (by simp)⟩⟩

/-- C8: the 8.1 settings u32s unpack via bit 0 and bit 7 (vsync and
force_cpu_render) and via bit 0 and bit 1 (zero_uninitialized_vars and
error_on_uninitialized_args); the 8.0 forms use the whole word against zero
with the second component fixed to `true` and `false` respectively. -/
theorem c8_settings_bit_unpacking (x : Nat) :
    vsync_force_cpu .GameMaker8_1 x = (x.testBit 0, x.testBit 7) ∧
    zero_uninit_error_args .GameMaker8_1 x = (x.testBit 0, x.testBit 1) ∧
    vsync_force_cpu .GameMaker8_0 x = (decide (x ≠ 0), true) ∧
    zero_uninit_error_args .GameMaker8_0 x = (decide (x ≠ 0), false) := by
  have hb0 : decide (x &&& 1 ≠ 0) = x.testBit 0 := decide_and_pow_ne x 0
  have hb1 : decide (x &&& 2 ≠ 0) = x.testBit 1 := decide_and_pow_ne x 1
  have hb7 : decide (x &&& (1 <<< 7) ≠ 0) = x.testBit 7 := decide_and_pow_ne x 7
  refine ⟨?_, ?_, rfl, rfl⟩
  · simp only [vsync_force_cpu]
    rw [← hb0, ← hb7]
  · simp only [zero_uninit_error_args]
    rw [← hb0, ← hb1]

/-- C9: any buffer whose first two bytes are not `MZ` — including buffers
shorter than two bytes — is rejected with `InvalidExeHeader`, and the
header-validation stage leaves the buffer untouched (this region of
`from_exe` performs no writes and no panicking operation). -/
theorem c9_short_mz_rejected (data : List Nat) (hmz : data.take 2 ≠ [77, 90]) :
    from_exe_header_stage data = (.error .InvalidExeHeader, data) := by
  unfold from_exe_header_stage from_exe_header
  by_cases hlen : 2 ≤ data.length
  · rw [sliceGet_take2 data hlen]
    simp [hmz]
  · have hnone : sliceGet data 0 2 = none := by
      unfold sliceGet
      rw [if_neg]
      omega
    simp [hnone]

/-- Witness for C9 on a one-byte buffer. -/
theorem c9_witness :
    (([5] : List Nat).take 2 ≠ [77, 90]) ∧
    from_exe_header_stage [5] = (.error .InvalidExeHeader, [5]) :=
  ⟨by decide, c9_short_mz_rejected [5] (by decide)⟩

/-- Witness for C10 on a 4×4 frame with a single colliding pixel. -/
theorem c10_witness :
    (1 ≤ 4) ∧ ((1 : Nat) < 4) ∧ ((2 : Nat) < 4) ∧
    ((fun x y => decide (x = 1 ∧ y = 2)) 1 2 = true) ∧
    make_bbox (fun x y => decide (x = 1 ∧ y = 2)) 4 4 =
      naive_bbox (fun x y => decide (x = 1 ∧ y = 2)) 4 4 :=
  ⟨by decide, by decide, by decide, by decide,
    (make_bbox_eq_naive (fun x y => decide (x = 1 ∧ y = 2)) 4 4 1 2
      (by decide) (by decide) (by decide) (by decide) (by decide)).1⟩

end GM8
